import Mathlib

/-
Verification of the real-time spectral pipeline of sonic_spectra.

Embedding conventions:
- Rust f32 values are modelled as exact rationals (ℚ); the spec states its
  numeric contracts (floor-based index mapping, interpolation algebra) over
  exact arithmetic.
- Transcendental library functions (f32::log10, the Euclidean norm square
  root) are irrational-valued, so they are passed as abstract functions
  ℚ → ℚ; properties assumed about them (such as log10 of 1e-6 being
  negative) appear as explicit hypotheses mirroring facts of the real
  functions.
- A Rust panic (out-of-bounds index, invalid slice range) is modelled by
  Option: none means the operation panics.
- Rust casts from f32 to usize truncate toward zero and saturate at 0 for
  negative inputs; for finite inputs this is Int.floor followed by toNat.
-/

set_option maxRecDepth 4000

/-- FFT settings, from settings.rs: size, sample_rate, min_frequency,
max_frequency, and the optional grid frequency list. -/
structure FFTSettings where
  size : ℕ
  sample_rate : ℚ
  min_frequency : ℚ
  max_frequency : ℚ
  frequencies : Option (List ℚ)
deriving DecidableEq

/-- Visualizer settings, from settings.rs: gain, scale_factor,
interpolation_factor, alpha, smooth_factor. -/
structure VisualizerSettings where
  gain : ℚ
  scale_factor : ℚ
  interpolation_factor : ℚ
  alpha : ℚ
  smooth_factor : ℚ
deriving DecidableEq

/-- Rust `as usize` applied to a finite f32: truncation toward zero,
saturating at 0 for negative values; on finite inputs this equals
floor composed with Int.toNat. -/
def rust_cast_usize (q : ℚ) : ℕ :=
  (Int.floor q).toNat

/-- The expression `(freq * fft_size as f32 / sample_rate) as usize`
appearing twice in get_frequency_indices (frequency_range_visualizer.rs,
lines 39 and 40). -/
def frequency_index (freq : ℚ) (fft_size : ℕ) (sample_rate : ℚ) : ℕ :=
  rust_cast_usize (freq * (fft_size : ℚ) / sample_rate)

/-- FrequencyRangeVisualizer::get_frequency_indices
(frequency_range_visualizer.rs, lines 34 to 43): min and max FFT bin
indices for the configured frequency range. -/
def get_frequency_indices (s : FFTSettings) (fft_size : ℕ) : ℕ × ℕ :=
  (frequency_index s.min_frequency fft_size s.sample_rate,
   frequency_index s.max_frequency fft_size s.sample_rate)

/-- Number of bars drawn by the visualizer: the length of the slice
fft_left[min_index..max_index] (frequency_range_visualizer.rs, lines
80 to 84). -/
def bar_count (s : FFTSettings) (fft_size : ℕ) : ℕ :=
  (get_frequency_indices s fft_size).2 - (get_frequency_indices s fft_size).1

/-- The interpolate function from fft_utils.rs, lines 65 to 67. -/
def interpolate (current target factor : ℚ) : ℚ :=
  current + (target - current) * factor

/-- Per-bar target height, from frequency_range_visualizer.rs, lines 86
and 87: magnitude is norm times gain, then
(magnitude + 1e-6).log10().max(0.0) * scale_factor. The log10 function is
abstracted since its values are irrational. -/
def target_height (log10 : ℚ → ℚ) (norm gain scale_factor : ℚ) : ℚ :=
  max (log10 (norm * gain + 1 / 1000000)) 0 * scale_factor

/-- The settings used by the concrete scenario in the spec:
fft_size 1024, sample_rate 48000, range 20 Hz to 20000 Hz. -/
def scenario_settings : FFTSettings :=
  { size := 1024
    sample_rate := 48000
    min_frequency := 20
    max_frequency := 20000
    frequencies := none }

/-- Helper: concrete evaluation of the index mapping at the scenario
settings. -/
theorem scenario_indices :
    get_frequency_indices scenario_settings 1024 = (0, 426) := by
  simp only [get_frequency_indices, frequency_index, rust_cast_usize,
    scenario_settings, Prod.mk.injEq]
  norm_num
  rfl

/-- Helper: the frequency-to-index mapping is monotone in the frequency
for a positive sample rate. -/
theorem frequency_index_mono (g1 g2 r : ℚ) (hr : 0 < r) (hg : g1 ≤ g2)
    (k : ℕ) : frequency_index g1 k r ≤ frequency_index g2 k r := by
  have hdiv : g1 * (k : ℚ) / r ≤ g2 * (k : ℚ) / r :=
    (div_le_div_iff_of_pos_right hr).mpr
      (mul_le_mul_of_nonneg_right hg (by positivity))
  exact Int.toNat_le_toNat (Int.floor_mono hdiv)

/-- C4: the frequency-to-bin mapping computes floor(freq * fft_size /
sample_rate) for nonnegative frequencies and positive sample rate, and on
the concrete scenario (fft_size 1024, sample_rate 48000, range 20 to
20000) yields min_index 0, max_index 426, hence exactly 426 bars. -/
theorem freq_index_contract (s : FFTSettings) (n : ℕ)
    (hmin : 0 ≤ s.min_frequency) (hmax : 0 ≤ s.max_frequency)
    (hsr : 0 < s.sample_rate) :
    (((get_frequency_indices s n).1 : ℤ)
        = Int.floor (s.min_frequency * (n : ℚ) / s.sample_rate)
      ∧ ((get_frequency_indices s n).2 : ℤ)
        = Int.floor (s.max_frequency * (n : ℚ) / s.sample_rate))
    ∧ get_frequency_indices scenario_settings 1024 = (0, 426)
    ∧ bar_count scenario_settings 1024 = 426 := by
  have hconc := scenario_indices
  refine ⟨⟨?_, ?_⟩, hconc, by simp [bar_count, hconc]⟩
  · have hq : 0 ≤ s.min_frequency * (n : ℚ) / s.sample_rate := by positivity
    simp [get_frequency_indices, frequency_index, rust_cast_usize,
      Int.toNat_of_nonneg (Int.floor_nonneg.mpr hq)]
  · have hq : 0 ≤ s.max_frequency * (n : ℚ) / s.sample_rate := by positivity
    simp [get_frequency_indices, frequency_index, rust_cast_usize,
      Int.toNat_of_nonneg (Int.floor_nonneg.mpr hq)]

/-- Witness for C4 at the concrete scenario settings. -/
theorem freq_index_contract_witness :
    (((get_frequency_indices scenario_settings 1024).1 : ℤ)
        = Int.floor ((20 : ℚ) * (1024 : ℚ) / 48000)
      ∧ ((get_frequency_indices scenario_settings 1024).2 : ℤ)
        = Int.floor ((20000 : ℚ) * (1024 : ℚ) / 48000))
    ∧ get_frequency_indices scenario_settings 1024 = (0, 426)
    ∧ bar_count scenario_settings 1024 = 426 :=
  freq_index_contract scenario_settings 1024 (by norm_num [scenario_settings])
    (by norm_num [scenario_settings]) (by norm_num [scenario_settings])

/-- C5: the frequency-to-bin mapping is monotone in the frequency for a
fixed positive sample rate and fft size, and min_index never exceeds
max_index when min_frequency does not exceed max_frequency. -/
theorem freq_index_monotone (sr : ℚ) (n : ℕ) (f1 f2 : ℚ)
    (s : FFTSettings) (m : ℕ)
    (hsr : 0 < sr) (h12 : f1 ≤ f2)
    (hs : 0 < s.sample_rate) (hmm : s.min_frequency ≤ s.max_frequency) :
    frequency_index f1 n sr ≤ frequency_index f2 n sr
    ∧ (get_frequency_indices s m).1 ≤ (get_frequency_indices s m).2 := by
  exact ⟨frequency_index_mono f1 f2 sr hsr h12 n,
    frequency_index_mono s.min_frequency s.max_frequency
      s.sample_rate hs hmm m⟩

/-- Witness for C5 at concrete values. -/
theorem freq_index_monotone_witness :
    frequency_index 100 1024 48000 ≤ frequency_index 200 1024 48000
    ∧ (get_frequency_indices scenario_settings 1024).1
        ≤ (get_frequency_indices scenario_settings 1024).2 :=
  freq_index_monotone 48000 1024 100 200 scenario_settings 1024
    (by norm_num) (by norm_num) (by norm_num [scenario_settings])
    (by norm_num [scenario_settings])

/-- C6: interpolation with factor 1 snaps the state to the target: for
every current state and every target, interpolate current target 1 equals
target. -/
theorem interpolate_factor_one (current target : ℚ) :
    interpolate current target 1 = target := by
  simp [interpolate]

/-- Reading data[j] on a Rust slice: panics (none) when j is out of
bounds, as in the audio callback body. -/
def read_sample (data : List ℚ) (j : ℕ) : Option ℚ :=
  if h : j < data.length then some (data.get ⟨j, h⟩) else none

/-- One iteration of the channel extraction loop in start_audio_stream
(audio.rs, lines 64 to 81): the pair written to
(left_buffer[i], right_buffer[i]). The idx < data.len() guard protects
only data[idx]; for channels >= 2 the code also reads data[idx + 1]
without a guard. prev is the pair already stored in the buffers, which
stays untouched when no branch runs (channels == 0). -/
def extract_pair (channels : ℕ) (data : List ℚ) (prev : ℚ × ℚ) (i : ℕ) :
    Option (ℚ × ℚ) :=
  if i * channels < data.length then
    if channels = 1 then
      match read_sample data (i * channels) with
      | none => none
      | some s => some (s, s)
    else if 2 ≤ channels then
      match read_sample data (i * channels),
            read_sample data (i * channels + 1) with
      | some l, some r => some (l, r)
      | _, _ => none
    else
      some prev
  else
    some (0, 0)

/-- The channel extraction loop over a list of loop indices; none as soon
as one iteration panics. -/
def extract_loop (channels : ℕ) (data : List ℚ) (prevs : List (ℚ × ℚ)) :
    List ℕ → Option (List (ℚ × ℚ))
  | [] => some []
  | i :: is =>
    match extract_pair channels data (prevs.getD i (0, 0)) i with
    | none => none
    | some p =>
      match extract_loop channels data prevs is with
      | none => none
      | some ps => some (p :: ps)

/-- The full channel extraction in the audio input callback: loop i in
0..fft_size (audio.rs, lines 64 to 81). -/
def extract_channels (channels fft_size : ℕ) (data : List ℚ)
    (prevs : List (ℚ × ℚ)) : Option (List (ℚ × ℚ)) :=
  extract_loop channels data prevs (List.range fft_size)

/-- C1 counterexample: with channels = 2, fft_size = 1 and a one-sample
buffer, the loop passes the idx < data.len() guard and then reads
data[idx + 1] out of bounds: the extraction panics instead of staying in
bounds. -/
theorem extract_channels_oob_counterexample :
    extract_channels 2 1 [(1 : ℚ)] [((0 : ℚ), (0 : ℚ))] = none := by
  rfl

/-- Helper: under channels >= 2 and a whole-frame buffer (length a
multiple of channels), each loop iteration succeeds, and yields (0, 0)
once i * channels is past the end of the buffer. -/
theorem extract_pair_whole_frames (channels : ℕ) (data : List ℚ)
    (hch : 2 ≤ channels) (hdiv : data.length % channels = 0)
    (prev : ℚ × ℚ) (i : ℕ) :
    ∃ p, extract_pair channels data prev i = some p
      ∧ (data.length ≤ i * channels → p = (0, 0)) := by
  by_cases hin : i * channels < data.length
  · obtain ⟨k, hk⟩ := Nat.dvd_of_mod_eq_zero hdiv
    have hik : i < k := by
      by_contra hik
      push_neg at hik
      have : channels * k ≤ i * channels := by
        calc channels * k = k * channels := Nat.mul_comm channels k
        _ ≤ i * channels := Nat.mul_le_mul_right channels hik
      omega
    have hsucc : (i + 1) * channels ≤ data.length := by
      calc (i + 1) * channels ≤ k * channels := Nat.mul_le_mul_right channels hik
      _ = channels * k := Nat.mul_comm k channels
      _ = data.length := hk.symm
    have hidx1 : i * channels + 1 < data.length := by
      have : i * channels + channels = (i + 1) * channels := by ring
      omega
    have hne1 : ¬ channels = 1 := by omega
    refine ⟨(data.get ⟨i * channels, hin⟩, data.get ⟨i * channels + 1, hidx1⟩),
      ?_, fun hout => absurd hin (by omega)⟩
    simp [extract_pair, hin, hne1, hch, read_sample, hidx1]
  · exact ⟨(0, 0), by simp [extract_pair, hin], fun _ => rfl⟩

/-- Helper: if every index in the loop list extracts successfully, the
whole loop succeeds, with one output pair per index, and the output is
(0, 0) at every position whose index is past the end of the buffer. -/
theorem extract_loop_whole_frames (channels : ℕ) (data : List ℚ)
    (prevs : List (ℚ × ℚ)) (hch : 2 ≤ channels)
    (hdiv : data.length % channels = 0) (is : List ℕ) :
    ∃ out, extract_loop channels data prevs is = some out
      ∧ out.length = is.length
      ∧ ∀ j : ℕ, ∀ hj : j < is.length,
          data.length ≤ is.get ⟨j, hj⟩ * channels →
          out.get? j = some (0, 0) := by
  induction is with
  | nil => exact ⟨[], rfl, rfl, fun j hj => absurd hj (by simp)⟩
  | cons i is ih =>
    obtain ⟨p, hp, hp0⟩ :=
      extract_pair_whole_frames channels data hch hdiv (prevs.getD i (0, 0)) i
    obtain ⟨out, hout, hlen, hzero⟩ := ih
    refine ⟨p :: out, ?_, by simp [hlen], ?_⟩
    · simp only [extract_loop]
      rw [hp, hout]
    · intro j hj hpast
      match j with
      | 0 => simpa using hp0 hpast
      | j + 1 =>
        have hj' : j < is.length := by simpa using hj
        simpa using hzero j hj' (by simpa using hpast)

/-- C1 amended: for channels >= 2 and any whole-frame buffer (length a
multiple of channels, which is what the audio backend delivers), the
extraction loop never reads past the buffer, produces one pair per output
index, and every index i with i * channels >= data.len() yields exactly
(0, 0). -/
theorem extract_channels_whole_frames (channels n : ℕ) (data : List ℚ)
    (prevs : List (ℚ × ℚ)) (hch : 2 ≤ channels)
    (hdiv : data.length % channels = 0) :
    ∃ out, extract_channels channels n data prevs = some out
      ∧ out.length = n
      ∧ ∀ i : ℕ, i < n → data.length ≤ i * channels →
          out.get? i = some (0, 0) := by
  obtain ⟨out, hout, hlen, hzero⟩ :=
    extract_loop_whole_frames channels data prevs hch hdiv (List.range n)
  refine ⟨out, hout, by simpa using hlen, fun i hi hpast => ?_⟩
  have hi' : i < (List.range n).length := by simpa using hi
  have hmem := hzero i hi'
  have hget : (List.range n).get ⟨i, hi'⟩ = i := by simp
  rw [hget] at hmem
  exact hmem hpast

/-- Witness for the amended C1 on a concrete stereo buffer of one whole
frame with fft_size 3. -/
theorem extract_channels_whole_frames_witness :
    ∃ out, extract_channels 2 3 [(1 : ℚ), (2 : ℚ)]
        [((5 : ℚ), (5 : ℚ)), ((6 : ℚ), (6 : ℚ)), ((7 : ℚ), (7 : ℚ))]
        = some out
      ∧ out.length = 3
      ∧ ∀ i : ℕ, i < 3 → ([(1 : ℚ), (2 : ℚ)] : List ℚ).length ≤ i * 2 →
          out.get? i = some (0, 0) :=
  extract_channels_whole_frames 2 3 [(1 : ℚ), (2 : ℚ)]
    [((5 : ℚ), (5 : ℚ)), ((6 : ℚ), (6 : ℚ)), ((7 : ℚ), (7 : ℚ))]
    (by norm_num) (by norm_num)

/-- Outcome environment for the audio backend: whether a default input
device exists, whether its default input configuration can be retrieved,
whether the input stream can be built, and whether it can be started
(audio.rs, lines 38 to 100). -/
structure AudioEnv where
  has_default_device : Bool
  default_config_ok : Bool
  build_stream_ok : Bool
  play_ok : Bool
deriving DecidableEq

/-- How the spawned audio thread body ends, from audio.rs: each failure
arm prints to stderr with eprintln and returns from the thread closure;
on success the stream keeps running. -/
inductive AudioThreadExit where
  | streaming
  | logged_no_device
  | logged_config_error
  | logged_build_error
  | logged_play_error
deriving DecidableEq

/-- The body of the thread spawned by start_audio_stream (audio.rs,
lines 36 to 104): the chain of match arms on default_input_device,
default_input_config, build_input_stream and stream.play. -/
def audio_thread_body (env : AudioEnv) : AudioThreadExit :=
  if !env.has_default_device then AudioThreadExit.logged_no_device
  else if !env.default_config_ok then AudioThreadExit.logged_config_error
  else if !env.build_stream_ok then AudioThreadExit.logged_build_error
  else if !env.play_ok then AudioThreadExit.logged_play_error
  else AudioThreadExit.streaming

/-- start_audio_stream (audio.rs, lines 33 to 106): spawns the thread and
returns unit to its caller unconditionally; the pair records the value
returned to the caller and the eventual exit of the spawned thread. -/
def start_audio_stream (env : AudioEnv) : Unit × AudioThreadExit :=
  ((), audio_thread_body env)

/-- run_application (lib.rs, lines 27 to 65): the only fallible early
step is building the tokio runtime (the ? operator); start_audio_stream
is called for its side effect and its audio failures never reach the
returned Result. -/
def run_application (env : AudioEnv) (runtime_ok : Bool) :
    Except String Unit :=
  if runtime_ok then
    let _ := start_audio_stream env
    Except.ok ()
  else
    Except.error "failed to build tokio runtime"

/-- C2 counterexample: with no input device present, the audio thread
merely logs and returns, and run_application still completes with ok:
the startup failure is not surfaced to the top-level caller as a typed
error. The same holds when the configuration cannot be retrieved or the
stream cannot be built. -/
theorem startup_failure_not_surfaced_counterexample :
    (start_audio_stream ⟨false, true, true, true⟩).2
        = AudioThreadExit.logged_no_device
    ∧ run_application ⟨false, true, true, true⟩ true = Except.ok ()
    ∧ (start_audio_stream ⟨true, false, true, true⟩).2
        = AudioThreadExit.logged_config_error
    ∧ run_application ⟨true, false, true, true⟩ true = Except.ok ()
    ∧ (start_audio_stream ⟨true, true, false, true⟩).2
        = AudioThreadExit.logged_build_error
    ∧ run_application ⟨true, true, false, true⟩ true = Except.ok () := by
  refine ⟨rfl, rfl, rfl, rfl, rfl, rfl⟩

/-- C2 amended: when no input device exists, or the default configuration
cannot be retrieved, or the stream cannot be built, the spawned audio
thread logs the corresponding message to stderr and returns, and
run_application is unaffected: it completes successfully (a silent no-op
for the caller, apart from the log line). No typed DeviceUnavailable or
ConfigurationError value exists in the program. -/
theorem startup_failure_logged_and_swallowed (env : AudioEnv)
    (hfail : env.has_default_device = false
      ∨ env.default_config_ok = false
      ∨ env.build_stream_ok = false) :
    run_application env true = Except.ok ()
    ∧ (start_audio_stream env).2 ≠ AudioThreadExit.streaming := by
  have key : ∀ d c b p : Bool, (d = false ∨ c = false ∨ b = false) →
      audio_thread_body ⟨d, c, b, p⟩ ≠ AudioThreadExit.streaming := by
    decide
  refine ⟨rfl, ?_⟩
  obtain ⟨d, c, b, p⟩ := env
  exact key d c b p hfail

/-- Witness for the amended C2: no input device present. -/
theorem startup_failure_logged_and_swallowed_witness :
    run_application ⟨false, true, true, true⟩ true = Except.ok ()
    ∧ (start_audio_stream ⟨false, true, true, true⟩).2
        ≠ AudioThreadExit.streaming :=
  startup_failure_logged_and_swallowed ⟨false, true, true, true⟩
    (Or.inl rfl)

/-- The smoothed-bar height buffers allocated in initialize_visualizer
(lib.rs, lines 120 to 122): vec![0.0; num_bars] with
num_bars = settings.fft.size / 2. -/
def initialize_heights (fft_size : ℕ) : List ℚ :=
  List.replicate (fft_size / 2) 0

/-- C3 counterexample: at the concrete configuration (fft_size 1024,
sample_rate 48000, range 20 to 20000) the allocated height-state length
is 1024 / 2 = 512, not the bar count 426 = max_index - min_index. -/
theorem heights_length_counterexample :
    (initialize_heights scenario_settings.size).length
      ≠ bar_count scenario_settings scenario_settings.size := by
  have hconc : bar_count scenario_settings 1024 = 426 := by
    simp [bar_count, scenario_indices]
  have hsize : scenario_settings.size = 1024 := rfl
  rw [hsize, hconc]
  simp [initialize_heights]

/-- Helper: under the configuration invariant max_frequency at most
sample_rate / 2, the maximal bin index is at most fft_size / 2. -/
theorem frequency_index_le_half (s : FFTSettings) (n : ℕ)
    (hsr : 0 < s.sample_rate)
    (hmax : s.max_frequency ≤ s.sample_rate / 2) :
    (get_frequency_indices s n).2 ≤ n / 2 := by
  have hq : s.max_frequency * (n : ℚ) / s.sample_rate ≤ (n : ℚ) / 2 := by
    rw [div_le_div_iff₀ hsr (by norm_num : (0 : ℚ) < 2)]
    have hn : (0 : ℚ) ≤ (n : ℚ) := by positivity
    nlinarith [hmax, hn]
  have h2 : (n : ℚ) / 2 < ((n / 2 : ℕ) : ℚ) + 1 := by
    rw [div_lt_iff₀ (by norm_num : (0 : ℚ) < 2)]
    have hmod : n < 2 * (n / 2) + 2 := by omega
    calc (n : ℚ) < 2 * ((n / 2 : ℕ) : ℚ) + 2 := by exact_mod_cast hmod
    _ = (((n / 2 : ℕ) : ℚ) + 1) * 2 := by ring
  have hfloor : Int.floor (s.max_frequency * (n : ℚ) / s.sample_rate)
      < ((n / 2 : ℕ) : ℤ) + 1 := by
    rw [Int.floor_lt]
    have hcast : (((((n / 2 : ℕ) : ℤ) + 1) : ℤ) : ℚ)
        = ((n / 2 : ℕ) : ℚ) + 1 := by
      norm_cast
    rw [hcast]
    linarith
  have hfloor2 : Int.floor (s.max_frequency * (n : ℚ) / s.sample_rate)
      ≤ ((n / 2 : ℕ) : ℤ) := by omega
  simpa [get_frequency_indices, frequency_index, rust_cast_usize,
    Int.toNat_le] using hfloor2

/-- C3 amended: the per-channel smoothed height state has length
fft_size / 2, and whenever the configured max_frequency is at most
sample_rate / 2 (the configuration invariant) this is at least the bar
count max_index - min_index, so the state covers every bar the draw loop
touches. -/
theorem heights_length_bounds (s : FFTSettings) (n : ℕ)
    (hsr : 0 < s.sample_rate)
    (hmax : s.max_frequency ≤ s.sample_rate / 2) :
    (initialize_heights n).length = n / 2
    ∧ bar_count s n ≤ n / 2 := by
  refine ⟨by simp [initialize_heights], ?_⟩
  calc bar_count s n ≤ (get_frequency_indices s n).2 := Nat.sub_le _ _
  _ ≤ n / 2 := frequency_index_le_half s n hsr hmax

/-- Witness for the amended C3 at the concrete scenario settings. -/
theorem heights_length_bounds_witness :
    (initialize_heights 1024).length = 1024 / 2
    ∧ bar_count scenario_settings 1024 ≤ 1024 / 2 :=
  heights_length_bounds scenario_settings 1024
    (by norm_num [scenario_settings]) (by norm_num [scenario_settings])

/-- Euclidean norm of a Complex32 value (Complex32::norm): the square
root of the sum of squares; the square root is abstracted since its
values are irrational. -/
def cnorm (sqrtQ : ℚ → ℚ) (z : ℚ × ℚ) : ℚ :=
  sqrtQ (z.1 * z.1 + z.2 * z.2)

/-- Rust slice indexing xs[a..b]: panics (none) unless a <= b and
b <= xs.len(). -/
def rust_slice (l : List (ℚ × ℚ)) (a b : ℕ) : Option (List (ℚ × ℚ)) :=
  if a ≤ b ∧ b ≤ l.length then some ((l.drop a).take (b - a)) else none

/-- The per-channel bar loop of FrequencyRangeVisualizer::draw
(frequency_range_visualizer.rs, lines 89 to 119): for each selected FFT
value, previous_heights[i] is replaced by
interpolate(previous_heights[i], target, interpolation_factor); indexing
previous_heights past its end panics (none). The heights tail beyond
num_bars is left unchanged. -/
def draw_bars (sqrtQ log10 : ℚ → ℚ) (gain scale_factor factor : ℚ) :
    List (ℚ × ℚ) → List ℚ → Option (List ℚ)
  | [], hs => some hs
  | _ :: _, [] => none
  | z :: zs, h :: hs =>
    match draw_bars sqrtQ log10 gain scale_factor factor zs hs with
    | none => none
    | some hs2 =>
      some (interpolate h
        (target_height log10 (cnorm sqrtQ z) gain scale_factor) factor :: hs2)

/-- FrequencyRangeVisualizer::draw (frequency_range_visualizer.rs, lines
58 to 146), restricted to its height-state effect: slice both FFT arrays
to [min_index, max_index), then run the interpolation loop on each
channel's stored heights. The Cairo calls only read the computed
heights. -/
def visualizer_draw (s : FFTSettings) (v : VisualizerSettings)
    (sqrtQ log10 : ℚ → ℚ) (fft_left fft_right : List (ℚ × ℚ))
    (heights_left heights_right : List ℚ) :
    Option (List ℚ × List ℚ) :=
  let fft_size := fft_left.length
  let mi := (get_frequency_indices s fft_size).1
  let ma := (get_frequency_indices s fft_size).2
  match rust_slice fft_left mi ma with
  | none => none
  | some slice_left =>
    match rust_slice fft_right mi ma with
    | none => none
    | some slice_right =>
      match draw_bars sqrtQ log10 v.gain v.scale_factor
          v.interpolation_factor slice_left heights_left with
      | none => none
      | some hl =>
        match draw_bars sqrtQ log10 v.gain v.scale_factor
            v.interpolation_factor slice_right heights_right with
        | none => none
        | some hr => some (hl, hr)

/-- Helper: the bar target height is nonnegative whenever the scale
factor is, regardless of the log10 value, thanks to the max with 0. -/
theorem target_height_nonneg (log10 : ℚ → ℚ) (nrm gain scale : ℚ)
    (hscale : 0 ≤ scale) : 0 ≤ target_height log10 nrm gain scale :=
  mul_nonneg (le_max_right _ 0) hscale

/-- Helper: interpolation between nonnegative values with a factor in
[0, 1] stays nonnegative. -/
theorem interpolate_nonneg (c t f : ℚ) (hc : 0 ≤ c) (ht : 0 ≤ t)
    (hf0 : 0 ≤ f) (hf1 : f ≤ 1) : 0 ≤ interpolate c t f := by
  have : interpolate c t f = c * (1 - f) + t * f := by
    simp [interpolate]
    ring
  rw [this]
  have h1 : 0 ≤ c * (1 - f) := mul_nonneg hc (by linarith)
  have h2 : 0 ≤ t * f := mul_nonneg ht hf0
  linarith

/-- Helper: one bar loop preserves nonnegativity of all stored heights,
for a nonnegative scale factor and interpolation factor in [0, 1]. -/
theorem draw_bars_nonneg (sqrtQ log10 : ℚ → ℚ) (gain scale factor : ℚ)
    (hscale : 0 ≤ scale) (hf0 : 0 ≤ factor) (hf1 : factor ≤ 1)
    (zs : List (ℚ × ℚ)) :
    ∀ hs hs2 : List ℚ, (∀ h ∈ hs, 0 ≤ h) →
    draw_bars sqrtQ log10 gain scale factor zs hs = some hs2 →
    ∀ h ∈ hs2, 0 ≤ h := by
  induction zs with
  | nil =>
    intro hs hs2 hnn heq
    simp only [draw_bars, Option.some.injEq] at heq
    exact heq ▸ hnn
  | cons z zs ih =>
    intro hs hs2 hnn heq
    match hs with
    | [] => simp [draw_bars] at heq
    | h :: hs =>
      simp only [draw_bars] at heq
      cases htail : draw_bars sqrtQ log10 gain scale factor zs hs with
      | none => rw [htail] at heq; simp at heq
      | some hs3 =>
        rw [htail] at heq
        simp only [Option.some.injEq] at heq
        subst heq
        intro x hx
        rcases List.mem_cons.mp hx with hx | hx
        · subst hx
          exact interpolate_nonneg _ _ _ (hnn h (List.mem_cons_self h hs))
            (target_height_nonneg log10 _ gain scale hscale) hf0 hf1
        · exact ih hs hs3 (fun y hy => hnn y (List.mem_cons_of_mem h hy))
            htail x hx

/-- The periodic tick loop: one draw_bars pass per tick, each tick fed
by a fresh frame of selected FFT values (lib.rs set_draw_func invoking
visualizer.draw every redraw). -/
def run_draws (sqrtQ log10 : ℚ → ℚ) (gain scale factor : ℚ) :
    List (List (ℚ × ℚ)) → List ℚ → Option (List ℚ)
  | [], hs => some hs
  | frame :: frames, hs =>
    match draw_bars sqrtQ log10 gain scale factor frame hs with
    | none => none
    | some hs2 => run_draws sqrtQ log10 gain scale factor frames hs2

/-- C7: starting from the zero-initialized state, every smoothed bar
height stays at least 0 after any sequence of ticks, for any FFT frames,
any nonnegative gain and scale factor, and any interpolation factor in
[0, 1], whatever values the (abstract) log10 takes. -/
theorem smoothed_heights_nonneg (sqrtQ log10 : ℚ → ℚ)
    (gain scale factor : ℚ) (hgain : 0 ≤ gain) (hscale : 0 ≤ scale)
    (hf0 : 0 ≤ factor) (hf1 : factor ≤ 1)
    (frames : List (List (ℚ × ℚ))) (n : ℕ) (final : List ℚ)
    (hrun : run_draws sqrtQ log10 gain scale factor frames
      (List.replicate n 0) = some final) :
    ∀ h ∈ final, 0 ≤ h := by
  have inv : ∀ fs : List (List (ℚ × ℚ)), ∀ hs out : List ℚ,
      (∀ h ∈ hs, 0 ≤ h) →
      run_draws sqrtQ log10 gain scale factor fs hs = some out →
      ∀ h ∈ out, 0 ≤ h := by
    intro fs
    induction fs with
    | nil =>
      intro hs out hnn heq
      simp only [run_draws, Option.some.injEq] at heq
      exact heq ▸ hnn
    | cons frame fs ih =>
      intro hs out hnn heq
      simp only [run_draws] at heq
      cases hstep : draw_bars sqrtQ log10 gain scale factor frame hs with
      | none => rw [hstep] at heq; simp at heq
      | some hs2 =>
        rw [hstep] at heq
        exact ih hs2 out
          (draw_bars_nonneg sqrtQ log10 gain scale factor hscale hf0 hf1
            frame hs hs2 hnn hstep) heq
  exact inv frames (List.replicate n 0) final
    (fun h hh => le_of_eq (List.eq_of_mem_replicate hh).symm) hrun

/-- Witness for C7: one tick over a single bar with concrete stand-ins
for the abstract sqrt and log10 leaves the single height at 50, which is
nonnegative. -/
theorem smoothed_heights_nonneg_witness : (0 : ℚ) ≤ 50 :=
  smoothed_heights_nonneg (fun q => q) (fun _ => 1) 1 100 (1 / 2)
    (by norm_num) (by norm_num) (by norm_num) (by norm_num)
    [[((1 : ℚ), (0 : ℚ))]] 1 [(50 : ℚ)]
    (by norm_num [run_draws, draw_bars, target_height, cnorm, interpolate])
    50 (List.mem_singleton.mpr rfl)

/-- C9: under the configuration invariant (nonnegative min_frequency
below max_frequency, max_frequency at most half the positive sample
rate), whenever max_index <= min_index the selected range is empty: the
bar count is zero and draw completes without panic, leaving both height
states unchanged and rendering no bars. -/
theorem draw_empty_range (s : FFTSettings) (v : VisualizerSettings)
    (sqrtQ log10 : ℚ → ℚ) (fft_left fft_right : List (ℚ × ℚ))
    (heights_left heights_right : List ℚ)
    (hsr : 0 < s.sample_rate) (hmin0 : 0 ≤ s.min_frequency)
    (hminmax : s.min_frequency < s.max_frequency)
    (hmax : s.max_frequency ≤ s.sample_rate / 2)
    (hlen : fft_right.length = fft_left.length)
    (hdeg : (get_frequency_indices s fft_left.length).2
      ≤ (get_frequency_indices s fft_left.length).1) :
    bar_count s fft_left.length = 0
    ∧ visualizer_draw s v sqrtQ log10 fft_left fft_right
        heights_left heights_right = some (heights_left, heights_right) := by
  have hmono : (get_frequency_indices s fft_left.length).1
      ≤ (get_frequency_indices s fft_left.length).2 :=
    frequency_index_mono s.min_frequency s.max_frequency s.sample_rate hsr
      (le_of_lt hminmax) fft_left.length
  have hix : (get_frequency_indices s fft_left.length).1
      = (get_frequency_indices s fft_left.length).2 :=
    le_antisymm hmono hdeg
  have hbound : (get_frequency_indices s fft_left.length).2
      ≤ fft_left.length :=
    le_trans (frequency_index_le_half s fft_left.length hsr hmax)
      (Nat.div_le_self _ 2)
  have hslice_l : rust_slice fft_left
      (get_frequency_indices s fft_left.length).1
      (get_frequency_indices s fft_left.length).2 = some [] := by
    rw [rust_slice, if_pos ⟨hmono, hbound⟩, ← hix]
    simp
  have hslice_r : rust_slice fft_right
      (get_frequency_indices s fft_left.length).1
      (get_frequency_indices s fft_left.length).2 = some [] := by
    rw [rust_slice, if_pos ⟨hmono, hlen ▸ hbound⟩, ← hix]
    simp
  constructor
  · rw [bar_count]
    omega
  · simp only [visualizer_draw]
    rw [hslice_l, hslice_r]
    simp [draw_bars]

/-- Witness for C9 with empty FFT arrays: the scenario settings satisfy
the invariant and both indices collapse to 0. -/
theorem draw_empty_range_witness :
    bar_count scenario_settings (([] : List (ℚ × ℚ))).length = 0
    ∧ visualizer_draw scenario_settings ⟨1, 100, 1, 1, 1⟩
        (fun q => q) (fun q => q) ([] : List (ℚ × ℚ)) ([] : List (ℚ × ℚ))
        [(3 : ℚ)] [(4 : ℚ)]
        = some ([(3 : ℚ)], [(4 : ℚ)]) :=
  draw_empty_range scenario_settings ⟨1, 100, 1, 1, 1⟩
    (fun q => q) (fun q => q) [] [] [(3 : ℚ)] [(4 : ℚ)]
    (by norm_num [scenario_settings]) (by norm_num [scenario_settings])
    (by norm_num [scenario_settings]) (by norm_num [scenario_settings])
    rfl
    (by simp [get_frequency_indices, frequency_index, rust_cast_usize,
      scenario_settings])

/-- Complex addition on pairs (re, im). -/
def cadd (a b : ℚ × ℚ) : ℚ × ℚ :=
  (a.1 + b.1, a.2 + b.2)

/-- Complex multiplication on pairs (re, im). -/
def cmul (a b : ℚ × ℚ) : ℚ × ℚ :=
  (a.1 * b.1 - a.2 * b.2, a.1 * b.2 + a.2 * b.1)

/-- Modelled from the spec: the forward discrete Fourier transform that
rustfft's plan_fft_forward/process performs (lib.rs, lines 150 to 160);
the crate itself is outside src/. Bin k is the sum over j of
x[j] * w(j*k), where the twiddle factors w (roots of unity, irrational)
are abstracted as a parameter. -/
def dft_bin (twiddle : ℕ → ℚ × ℚ) (x : List (ℚ × ℚ)) (k : ℕ) : ℚ × ℚ :=
  (List.range x.length).foldl
    (fun acc j => cadd acc (cmul (x.getD j (0, 0)) (twiddle (j * k))))
    (0, 0)

/-- Modelled from the spec: the full forward transform, one output bin
per input sample. -/
def dft (twiddle : ℕ → ℚ × ℚ) (x : List (ℚ × ℚ)) : List (ℚ × ℚ) :=
  (List.range x.length).map (dft_bin twiddle x)

/-- C8: feeding the spectral analyzer an all-zero time-domain buffer
yields the zero complex value in every bin, hence Euclidean-norm
magnitude 0 for every bin (for any square root with sqrt 0 = 0), and
with gain 1 the per-bar target height is
max(log10(1e-6), 0) * scale_factor = 0 since log10(1e-6) is negative. -/
theorem zero_buffer_zero_spectrum (n : ℕ) (twiddle : ℕ → ℚ × ℚ)
    (sqrtQ log10 : ℚ → ℚ) (scale : ℚ)
    (hsqrt : sqrtQ 0 = 0) (hlog : log10 (1 / 1000000) ≤ 0) :
    (∀ z ∈ dft twiddle (List.replicate n ((0 : ℚ), (0 : ℚ))),
      z = (0, 0) ∧ cnorm sqrtQ z = 0)
    ∧ target_height log10 0 1 scale = 0 := by
  have hstep : ∀ acc : ℚ × ℚ, ∀ j m : ℕ,
      cadd acc (cmul ((List.replicate n ((0 : ℚ), (0 : ℚ))).getD j (0, 0))
        (twiddle m)) = acc := by
    intro acc j m
    have hget : (List.replicate n ((0 : ℚ), (0 : ℚ))).getD j (0, 0)
        = (0, 0) := by
      rcases Nat.lt_or_ge j n with hj | hj
      · rw [List.getD_eq_getElem _ _ (by simpa using hj)]
        simp
      · rw [List.getD_eq_default _ _ (by simpa using hj)]
    rw [hget]
    simp [cadd, cmul]
  have hbin : ∀ k : ℕ,
      dft_bin twiddle (List.replicate n ((0 : ℚ), (0 : ℚ))) k = (0, 0) := by
    intro k
    rw [dft_bin]
    have hfold : ∀ js : List ℕ, ∀ acc : ℚ × ℚ,
        js.foldl (fun acc j =>
          cadd acc (cmul ((List.replicate n ((0 : ℚ), (0 : ℚ))).getD j (0, 0))
            (twiddle (j * k)))) acc = acc := by
      intro js
      induction js with
      | nil => intro acc; rfl
      | cons j js ih =>
        intro acc
        rw [List.foldl_cons, hstep acc j (j * k)]
        exact ih acc
    exact hfold _ _
  constructor
  · intro z hz
    obtain ⟨k, hk, hzk⟩ := List.mem_map.mp hz
    have hz0 : z = (0, 0) := hzk ▸ hbin k
    refine ⟨hz0, ?_⟩
    rw [hz0]
    simpa [cnorm] using hsqrt
  · rw [target_height]
    have : (0 : ℚ) * 1 + 1 / 1000000 = 1 / 1000000 := by norm_num
    rw [this, max_eq_right hlog, zero_mul]

/-- Witness for C8 at n = 4 with concrete stand-ins for the twiddle
factors, the square root and log10. -/
theorem zero_buffer_zero_spectrum_witness :
    (∀ z ∈ dft (fun _ => ((1 : ℚ), (0 : ℚ)))
        (List.replicate 4 ((0 : ℚ), (0 : ℚ))),
      z = (0, 0) ∧ cnorm (fun q => q) z = 0)
    ∧ target_height (fun _ => (-6 : ℚ)) 0 1 100 = 0 :=
  zero_buffer_zero_spectrum 4 (fun _ => ((1 : ℚ), (0 : ℚ)))
    (fun q => q) (fun _ => (-6 : ℚ)) 100 rfl (by norm_num)

/-- HolographicGlowVisualizer::get_frequency_indices
(frequency_holographic_glow_visualizer.rs, lines 34 to 44), embedded
separately from the FrequencyRangeVisualizer copy. -/
def hg_get_frequency_indices (s : FFTSettings) (fft_size : ℕ) : ℕ × ℕ :=
  (rust_cast_usize (s.min_frequency * (fft_size : ℚ) / s.sample_rate),
   rust_cast_usize (s.max_frequency * (fft_size : ℚ) / s.sample_rate))

/-- The per-channel bar loop of HolographicGlowVisualizer::draw
(frequency_holographic_glow_visualizer.rs, lines 87 to 134): the same
magnitude, target-height and interpolation computation as the frequency
range visualizer; only the gradient painting differs. -/
def hg_draw_bars (sqrtQ log10 : ℚ → ℚ) (gain scale_factor factor : ℚ) :
    List (ℚ × ℚ) → List ℚ → Option (List ℚ)
  | [], hs => some hs
  | _ :: _, [] => none
  | z :: zs, h :: hs =>
    match hg_draw_bars sqrtQ log10 gain scale_factor factor zs hs with
    | none => none
    | some hs2 =>
      some (interpolate h
        (max (log10 (cnorm sqrtQ z * gain + 1 / 1000000)) 0 * scale_factor)
        factor :: hs2)

/-- HolographicGlowVisualizer::draw
(frequency_holographic_glow_visualizer.rs, lines 60 to 188), restricted
to its height-state effect. -/
def hg_visualizer_draw (s : FFTSettings) (v : VisualizerSettings)
    (sqrtQ log10 : ℚ → ℚ) (fft_left fft_right : List (ℚ × ℚ))
    (heights_left heights_right : List ℚ) :
    Option (List ℚ × List ℚ) :=
  let fft_size := fft_left.length
  let mi := (hg_get_frequency_indices s fft_size).1
  let ma := (hg_get_frequency_indices s fft_size).2
  match rust_slice fft_left mi ma with
  | none => none
  | some slice_left =>
    match rust_slice fft_right mi ma with
    | none => none
    | some slice_right =>
      match hg_draw_bars sqrtQ log10 v.gain v.scale_factor
          v.interpolation_factor slice_left heights_left with
      | none => none
      | some hl =>
        match hg_draw_bars sqrtQ log10 v.gain v.scale_factor
            v.interpolation_factor slice_right heights_right with
        | none => none
        | some hr => some (hl, hr)

/-- Helper: the two visualizers run the same per-bar update loop. -/
theorem hg_draw_bars_eq (sqrtQ log10 : ℚ → ℚ) (gain scale factor : ℚ) :
    ∀ zs : List (ℚ × ℚ), ∀ hs : List ℚ,
    hg_draw_bars sqrtQ log10 gain scale factor zs hs
      = draw_bars sqrtQ log10 gain scale factor zs hs := by
  intro zs
  induction zs with
  | nil => intro hs; rfl
  | cons z zs ih =>
    intro hs
    match hs with
    | [] => rfl
    | h :: hs =>
      simp only [hg_draw_bars, draw_bars, ih hs, target_height]

/-- C10: on identical settings and identical FFT inputs, the holographic
glow visualizer computes the same bin index range and performs exactly
the same spectral-to-height update on the stored heights as the
frequency range visualizer; the two differ only in how bars are
painted. -/
theorem visualizers_equivalent (s : FFTSettings) (v : VisualizerSettings)
    (sqrtQ log10 : ℚ → ℚ) (m : ℕ) (fft_left fft_right : List (ℚ × ℚ))
    (heights_left heights_right : List ℚ) :
    hg_get_frequency_indices s m = get_frequency_indices s m
    ∧ hg_visualizer_draw s v sqrtQ log10 fft_left fft_right
        heights_left heights_right
      = visualizer_draw s v sqrtQ log10 fft_left fft_right
        heights_left heights_right := by
  refine ⟨rfl, ?_⟩
  simp only [hg_visualizer_draw, visualizer_draw, hg_draw_bars_eq]
  rfl
